import Mathlib

/-!
Shallow embedding of the FAISS index management module
(src/python/faiss_index.py): load_index, save_index, ingest, query.

Vectors are modelled as lists of rationals (an exact stand-in for
float32), the FAISS IndexFlatL2 as a dimension together with the stored
vectors in order of addition, and the two on-disk artifacts (faiss.index
and faiss_metadata.json) as an explicit store value passed through the
operations.  Nearest-neighbor search ranks stored positions by squared
L2 distance, ties broken by position, and pads with the sentinel -1 when
k exceeds the number of stored vectors, as the flat index does.  The
python functions report failure through sys.exit(1) or an uncaught
exception; the outcome types record which path was taken, and exitCode
maps outcomes to the process exit status.
-/

/-- VECTOR_DIM = 1536, the fixed embedding dimension. -/
def VECTOR_DIM : ℕ := 1536

/-- Squared L2 distance between two vectors, as IndexFlatL2 computes it. -/
def sqDist (v w : List ℚ) : ℚ :=
  ((v.zip w).map (fun p => (p.1 - p.2) ^ 2)).sum

/-- The FAISS flat L2 index: a dimension and the stored vectors in order
of addition. -/
structure FaissIndex where
  d : ℕ
  vecs : List (List ℚ)
deriving DecidableEq

/-- Number of stored vectors (faiss ntotal). -/
def FaissIndex.ntotal (idx : FaissIndex) : ℕ := idx.vecs.length

/-- faiss.IndexFlatL2(d): a fresh empty index. -/
def IndexFlatL2 (d : ℕ) : FaissIndex := ⟨d, []⟩

/-- index.add(xs): appends the batch when the row length matches the
index dimension, otherwise the wrapper assertion fails (modelled as
none). -/
def FaissIndex.add (idx : FaissIndex) (batch : List (List ℚ)) :
    Option FaissIndex :=
  if (batch.headD []).length = idx.d then some ⟨idx.d, idx.vecs ++ batch⟩
  else none

/-- Order used to rank candidate positions: by squared distance to the
query, ties by position (a linear order, so the ranking is the unique
sorted arrangement of the positions). -/
def rankRel (key : ℕ → ℚ) (i j : ℕ) : Prop :=
  key i < key j ∨ (key i = key j ∧ i ≤ j)

instance (key : ℕ → ℚ) (i j : ℕ) : Decidable (rankRel key i j) :=
  inferInstanceAs (Decidable (_ ∨ _))

instance (key : ℕ → ℚ) : IsTrans ℕ (rankRel key) where
  trans a b c hab hbc := by
    rcases hab with h1 | ⟨h1, h1n⟩ <;> rcases hbc with h2 | ⟨h2, h2n⟩
    · exact Or.inl (h1.trans h2)
    · exact Or.inl (h2 ▸ h1)
    · exact Or.inl (h1 ▸ h2)
    · exact Or.inr ⟨h1.trans h2, h1n.trans h2n⟩

instance (key : ℕ → ℚ) : IsTotal ℕ (rankRel key) where
  total a b := by
    rcases lt_trichotomy (key a) (key b) with h | h | h
    · exact Or.inl (Or.inl h)
    · rcases Nat.le_total a b with hn | hn
      · exact Or.inl (Or.inr ⟨h, hn⟩)
      · exact Or.inr (Or.inr ⟨h.symm, hn⟩)
    · exact Or.inr (Or.inl h)

/-- index.search(q, k): positions of the k nearest stored vectors,
nearest first, padded with the sentinel -1 when k exceeds ntotal; the
wrapper asserts the query dimension (modelled as none). -/
def FaissIndex.search (idx : FaissIndex) (q : List ℚ) (k : ℕ) :
    Option (List ℤ) :=
  if q.length = idx.d then
    let ranked := (List.range idx.ntotal).insertionSort
      (rankRel (fun i => sqDist (idx.vecs.getD i []) q))
    some ((ranked.take k).map Int.ofNat ++
      List.replicate (k - idx.ntotal) (-1 : ℤ))
  else none

/-- Content of the metadata file when it exists: either it parses to a
list of strings, or json.load raises JSONDecodeError on it. -/
inductive MetaContent where
  | parsed : List String → MetaContent
  | corrupt : MetaContent
deriving DecidableEq

/-- The two persistent artifacts; none models an absent file. -/
structure Store where
  indexFile : Option FaissIndex
  metadataFile : Option MetaContent
deriving DecidableEq

/-- Result of load_index: the index, the metadata list, and whether the
corrupted-metadata warning was printed. -/
structure LoadResult where
  index : FaissIndex
  metadata : List String
  corruptWarning : Bool
deriving DecidableEq

/-- load_index(): reads the index file, or creates IndexFlatL2 of
dimension VECTOR_DIM when it is absent; reads the metadata file,
recovering with an empty list (and a warning) when it is corrupted, or
using an empty list when it is absent. -/
def load_index (s : Store) : LoadResult :=
  let index := match s.indexFile with
    | some idx => idx
    | none => IndexFlatL2 VECTOR_DIM
  match s.metadataFile with
  | some (MetaContent.parsed m) => ⟨index, m, false⟩
  | some MetaContent.corrupt => ⟨index, [], true⟩
  | none => ⟨index, [], false⟩

/-- save_index(index, metadata): overwrites both artifacts. -/
def save_index (index : FaissIndex) (metadata : List String) : Store :=
  ⟨some index, some (MetaContent.parsed metadata)⟩

/-- One record of the ingestion data file.  The hash field is optional
in the data (item.get with default empty string). -/
structure IngestRecord where
  embedding : List ℚ
  text : String
  hash : Option String
deriving DecidableEq

/-- Observable outcome of ingest: the python function always exits.
errNoData is the empty-data-file rejection, errRaggedBatch the uncaught
numpy error on rows of unequal lengths, errIngest the caught exception
from index.add. -/
inductive IngestOutcome where
  | errNoData : IngestOutcome
  | errRaggedBatch : IngestOutcome
  | errIngest : IngestOutcome
  | ok : ℕ → IngestOutcome
deriving DecidableEq

/-- Process exit status of an ingest outcome. -/
def IngestOutcome.exitCode : IngestOutcome → ℕ
  | .ok _ => 0
  | _ => 1

/-- np.array(embeddings).astype succeeds only when all rows share one
length; on ragged rows it raises ValueError. -/
def sameRowLength : List (List ℚ) → Bool
  | [] => true
  | v :: rest => rest.all (fun w => w.length == v.length)

/-- ingest(data_file): rejects an empty data file, builds the embedding,
text and hash columns, converts the embeddings to one rectangular array
(raising on ragged rows, before the index is loaded), loads the index,
adds the vectors (a failed add assertion is caught and reported), extends
the metadata and saves.  Returns the outcome together with the store
after the call; every failure path leaves the store untouched. -/
def ingest (data : List IngestRecord) (s : Store) : IngestOutcome × Store :=
  if data.isEmpty then (.errNoData, s)
  else
    let embeddings := data.map (fun item => item.embedding)
    let texts := data.map (fun item => item.text)
    let hashes := data.map (fun item => item.hash.getD "")
    if sameRowLength embeddings then
      let loaded := load_index s
      let initial_size := loaded.index.ntotal
      match loaded.index.add embeddings with
      | some index' =>
        (.ok (index'.ntotal - initial_size),
          save_index index' (loaded.metadata ++ texts))
      | none => (.errIngest, s)
    else (.errRaggedBatch, s)

/-- Observable outcome of query.  errInvalidQuery is the missing or
empty query-data rejection, errEmptyIndex the empty-index path (which
prints an empty list and exits with status 1), errSearchDim the uncaught
dimension assertion inside index.search. -/
inductive QueryOutcome where
  | errInvalidQuery : QueryOutcome
  | errEmptyIndex : QueryOutcome
  | errSearchDim : QueryOutcome
  | ok : List String → QueryOutcome
deriving DecidableEq

/-- Process exit status of a query outcome. -/
def QueryOutcome.exitCode : QueryOutcome → ℕ
  | .ok _ => 0
  | _ => 1

/-- The JSON list written to stdout, when one is written: a successful
query prints its results, and the empty-index path prints an empty list
just before exiting with status 1. -/
def QueryOutcome.printed : QueryOutcome → Option (List String)
  | .ok r => some r
  | .errEmptyIndex => some []
  | _ => none

/-- query(query_file, k) with default k = 5: rejects missing or empty
query data, loads the index, treats an empty index as an error that
still prints an empty list, searches (the dimension assertion in search
is not caught), and keeps the metadata entry of every returned position
that lies inside the metadata range, skipping sentinels and out-of-range
positions with a warning.  The store is never modified. -/
def query (query_data : Option (List ℚ)) (k : ℕ) (s : Store) :
    QueryOutcome × Store :=
  match query_data with
  | none => (.errInvalidQuery, s)
  | some q =>
    let loaded := load_index s
    if loaded.index.ntotal = 0 then (.errEmptyIndex, s)
    else
      match loaded.index.search q k with
      | none => (.errSearchDim, s)
      | some indices =>
        (.ok (indices.filterMap (fun idx =>
          if 0 ≤ idx ∧ idx < (loaded.metadata.length : ℤ)
          then loaded.metadata[idx.toNat]? else none)), s)

/-! ## Basic facts about the embedding -/

lemma load_save (idx : FaissIndex) (md : List String) :
    load_index (save_index idx md) = ⟨idx, md, false⟩ := rfl

lemma query_store_unchanged (qd : Option (List ℚ)) (k : ℕ) (s : Store) :
    (query qd k s).2 = s := by
  unfold query
  cases qd with
  | none => rfl
  | some q =>
    dsimp only
    split
    · rfl
    · split <;> rfl

lemma sameRowLength_of_all {l : List (List ℚ)} {c : ℕ}
    (h : ∀ v ∈ l, v.length = c) : sameRowLength l = true := by
  cases l with
  | nil => rfl
  | cons v rest =>
    simp only [sameRowLength, List.all_eq_true]
    intro w hw
    have hv : v.length = c := h v (List.mem_cons_self v rest)
    have hwc : w.length = c := h w (List.mem_cons_of_mem v hw)
    simp [hv, hwc]

lemma headD_length_of_all {l : List (List ℚ)} {c : ℕ}
    (h : ∀ v ∈ l, v.length = c) (hne : l ≠ []) : (l.headD []).length = c := by
  cases l with
  | nil => exact absurd rfl hne
  | cons v rest => exact h v (List.mem_cons_self v rest)

/-- A successful ingestion, in closed form: with a nonempty batch whose
rows all have the dimension of the loaded index, ingest reports the
batch size and saves the appended index and metadata. -/
lemma ingest_valid_eq (B : List IngestRecord) (s : Store) (hne : B ≠ [])
    (hdim : ∀ r ∈ B, r.embedding.length = (load_index s).index.d) :
    ingest B s = (IngestOutcome.ok B.length,
      save_index
        ⟨(load_index s).index.d,
          (load_index s).index.vecs ++ B.map (fun r => r.embedding)⟩
        ((load_index s).metadata ++ B.map (fun r => r.text))) := by
  obtain ⟨a, l, rfl⟩ : ∃ a l, B = a :: l := by
    cases B with
    | nil => exact absurd rfl hne
    | cons a l => exact ⟨a, l, rfl⟩
  have hrow : sameRowLength ((a :: l).map (fun r => r.embedding)) = true := by
    apply sameRowLength_of_all
    intro v hv
    rcases List.mem_map.mp hv with ⟨r, hr, rfl⟩
    exact hdim r hr
  have hhead : (((a :: l).map (fun r => r.embedding)).headD []).length
      = (load_index s).index.d := by
    apply headD_length_of_all
    · intro v hv
      rcases List.mem_map.mp hv with ⟨r, hr, rfl⟩
      exact hdim r hr
    · simp
  simp only [ingest, List.isEmpty_cons, Bool.false_eq_true, if_false, hrow,
    if_true, FaissIndex.add, hhead, reduceIte]
  simp [FaissIndex.ntotal]

/-! ## C1: querying an empty index -/

/-- C1 counterexample: on a store with zero vectors, query does print an
empty result list, but it signals an error: the outcome is the
empty-index error path, whose process exit status is 1, refuting the
claim that this is a non-error outcome. -/
theorem query_empty_index_signals_error_cex :
    (query (some (List.replicate VECTOR_DIM 0)) 5 ⟨none, none⟩).1.exitCode = 1 ∧
    (query (some (List.replicate VECTOR_DIM 0)) 5 ⟨none, none⟩).1.printed
      = some [] :=
  ⟨rfl, rfl⟩

/-- C1 (amended): for every query against an index with zero vectors,
query prints an empty result list on stdout, but the invocation fails:
it reports the empty index as an error and exits with status 1 (and the
store is untouched). -/
theorem query_empty_index_prints_empty_but_exits_nonzero
    (q : List ℚ) (k : ℕ) (s : Store)
    (h : (load_index s).index.ntotal = 0) :
    (query (some q) k s).1 = QueryOutcome.errEmptyIndex ∧
    (query (some q) k s).1.printed = some [] ∧
    (query (some q) k s).1.exitCode = 1 ∧
    (query (some q) k s).2 = s := by
  have hq : (query (some q) k s).1 = QueryOutcome.errEmptyIndex := by
    simp [query, h]
  refine ⟨hq, ?_, ?_, query_store_unchanged _ _ _⟩ <;> rw [hq] <;> rfl

/-- Witness for C1: the fresh store loads with zero vectors, and the
amended theorem applies to it. -/
theorem query_empty_index_prints_empty_but_exits_nonzero_wit :
    (load_index ⟨none, none⟩).index.ntotal = 0 ∧
    (query (some []) 7 ⟨none, none⟩).1 = QueryOutcome.errEmptyIndex :=
  ⟨rfl, (query_empty_index_prints_empty_but_exits_nonzero [] 7 ⟨none, none⟩ rfl).1⟩

/-! ## C7: metadata recovery during load -/

/-- C7: when the metadata file exists but fails to parse, load_index
substitutes an empty metadata list and completes (with the warning
printed); when the metadata file does not exist, load_index uses an
empty list (without the corruption warning). -/
theorem load_index_metadata_recovery (s : Store) :
    (s.metadataFile = some MetaContent.corrupt →
      (load_index s).metadata = [] ∧ (load_index s).corruptWarning = true) ∧
    (s.metadataFile = none →
      (load_index s).metadata = [] ∧ (load_index s).corruptWarning = false) := by
  constructor <;> intro h <;> simp [load_index, h]

/-- Witness for C7 at a concrete corrupted store. -/
theorem load_index_metadata_recovery_wit :
    (load_index ⟨none, some MetaContent.corrupt⟩).metadata = [] ∧
    (load_index ⟨none, some MetaContent.corrupt⟩).corruptWarning = true :=
  (load_index_metadata_recovery ⟨none, some MetaContent.corrupt⟩).1 rfl

/-! ## C9: save-load-save round-trip -/

/-- C9: loading a saved index reproduces the same vectors in the same
order and the same metadata in the same order, so saving the loaded
value writes artifacts identical to the first save. -/
theorem save_load_save_roundtrip (index : FaissIndex) (metadata : List String) :
    (load_index (save_index index metadata)).index = index ∧
    (load_index (save_index index metadata)).metadata = metadata ∧
    save_index (load_index (save_index index metadata)).index
        (load_index (save_index index metadata)).metadata
      = save_index index metadata :=
  ⟨rfl, rfl, rfl⟩

/-! ## C10: the hash field has no observable influence -/

/-- C10: two ingest batches that agree on embeddings and texts produce
identical outcomes and identical stores, whatever their hash fields:
the hash column is read but never used. -/
theorem ingest_independent_of_hash_field (B1 B2 : List IngestRecord)
    (s : Store)
    (h : B1.map (fun r => (r.embedding, r.text))
       = B2.map (fun r => (r.embedding, r.text))) :
    ingest B1 s = ingest B2 s := by
  have hemb : B1.map (fun r => r.embedding) = B2.map (fun r => r.embedding) := by
    have h2 := congrArg (List.map Prod.fst) h
    simpa [List.map_map, Function.comp] using h2
  have htxt : B1.map (fun r => r.text) = B2.map (fun r => r.text) := by
    have h2 := congrArg (List.map Prod.snd) h
    simpa [List.map_map, Function.comp] using h2
  have hemp : B1.isEmpty = B2.isEmpty := by
    have h2 := congrArg List.length h
    simp only [List.length_map] at h2
    cases B1 <;> cases B2 <;> simp_all
  simp only [ingest, hemp, hemb, htxt]

/-- Witness for C10: a record with no hash ingests exactly like the
same record with a hash. -/
theorem ingest_independent_of_hash_field_wit :
    ingest [⟨[1], "t", none⟩] ⟨none, none⟩
      = ingest [⟨[1], "t", some "h"⟩] ⟨none, none⟩ :=
  ingest_independent_of_hash_field _ _ _ rfl

/-! ## C2: dimension-mismatched batches are rejected whole -/

lemma sameRowLength_cons_all {v : List ℚ} {rest : List (List ℚ)}
    (h : sameRowLength (v :: rest) = true) :
    ∀ w ∈ rest, w.length = v.length := by
  intro w hw
  simp only [sameRowLength, List.all_eq_true] at h
  simpa using h w hw

/-- C2: if any record of the batch has a vector length different from
the dimension of the loaded index (VECTOR_DIM for every store this
program writes), ingest fails with exit status 1 and the persisted store
is exactly the store before the call: no record of the batch is
ingested. -/
theorem ingest_dimension_mismatch_rejected_whole
    (B : List IngestRecord) (s : Store)
    (hr : ∃ r ∈ B, r.embedding.length ≠ (load_index s).index.d) :
    (ingest B s).1.exitCode = 1 ∧ (ingest B s).2 = s := by
  obtain ⟨r, hrB, hlen⟩ := hr
  obtain ⟨a, l, rfl⟩ : ∃ a l, B = a :: l := by
    cases B with
    | nil => exact absurd hrB (List.not_mem_nil r)
    | cons a l => exact ⟨a, l, rfl⟩
  by_cases hrow : sameRowLength (a.embedding :: l.map (fun x => x.embedding)) = true
  · have hall := sameRowLength_cons_all hrow
    have hra : r.embedding.length = a.embedding.length := by
      rcases List.mem_cons.mp hrB with h1 | h1
      · rw [h1]
      · exact hall r.embedding (List.mem_map_of_mem _ h1)
    have hna : ¬ a.embedding.length = (load_index s).index.d := by
      rw [hra] at hlen; exact hlen
    simp [ingest, hrow, FaissIndex.add, hna, IngestOutcome.exitCode]
  · simp [ingest, hrow, IngestOutcome.exitCode]

/-- Witness for C2: a fresh store loads an index of dimension
VECTOR_DIM, and a one-record batch with a length-2 vector is rejected
with exit status 1 and an unchanged store. -/
theorem ingest_dimension_mismatch_rejected_whole_wit :
    (∃ r ∈ [(⟨[1, 2], "t", none⟩ : IngestRecord)],
      r.embedding.length ≠ (load_index ⟨none, none⟩).index.d) ∧
    (ingest [(⟨[1, 2], "t", none⟩ : IngestRecord)] ⟨none, none⟩).1.exitCode = 1 ∧
    (ingest [(⟨[1, 2], "t", none⟩ : IngestRecord)] ⟨none, none⟩).2 = ⟨none, none⟩ :=
  ⟨⟨⟨[1, 2], "t", none⟩, by simp, by decide⟩,
    ingest_dimension_mismatch_rejected_whole _ _
      ⟨⟨[1, 2], "t", none⟩, by simp, by decide⟩⟩

/-! ## C5: invalid queries fail with no side effects -/

/-- C5: a query whose data has no embedding field, or whose embedding
length differs from the dimension of the loaded index, fails (exit
status 1) and has no side effect on the store. -/
theorem query_missing_or_mismatched_vector_fails
    (query_data : Option (List ℚ)) (k : ℕ) (s : Store)
    (h : ∀ q, query_data = some q → q.length ≠ (load_index s).index.d) :
    (query query_data k s).1.exitCode = 1 ∧ (query query_data k s).2 = s := by
  refine ⟨?_, query_store_unchanged _ _ _⟩
  cases query_data with
  | none => rfl
  | some q =>
    have hq := h q rfl
    by_cases h0 : (load_index s).index.ntotal = 0
    · simp [query, h0, QueryOutcome.exitCode]
    · simp [query, h0, FaissIndex.search, hq, QueryOutcome.exitCode]

/-- Witness for C5 at a non-empty store of dimension 2 and a length-1
query vector. -/
theorem query_missing_or_mismatched_vector_fails_wit :
    (query (some [0]) 5
      ⟨some ⟨2, [[0, 0]]⟩, some (MetaContent.parsed ["a"])⟩).1.exitCode = 1 :=
  (query_missing_or_mismatched_vector_fails (some [0]) 5
    ⟨some ⟨2, [[0, 0]]⟩, some (MetaContent.parsed ["a"])⟩
    (by intro q hq; simp only [Option.some.injEq] at hq; subst hq; decide)).1

/-! ## C6: size-additivity of ingest -/

/-- C6 counterexample: on a store whose index file holds one vector
while the metadata file is corrupted, a valid one-record batch ingests
successfully (count 1), yet afterwards the metadata length is 1 while
the structure size is 2: the unconditional claim fails on misaligned
stores. -/
theorem ingest_into_misaligned_store_cex :
    (ingest [⟨[5], "x", none⟩]
        ⟨some ⟨1, [[0]]⟩, some MetaContent.corrupt⟩).1 = IngestOutcome.ok 1 ∧
    (load_index (ingest [⟨[5], "x", none⟩]
        ⟨some ⟨1, [[0]]⟩, some MetaContent.corrupt⟩).2).metadata.length
      ≠ (load_index (ingest [⟨[5], "x", none⟩]
        ⟨some ⟨1, [[0]]⟩, some MetaContent.corrupt⟩).2).index.ntotal := by
  constructor
  · rfl
  · decide

/-- C6 (amended): for every valid non-empty batch ingested into a store
whose loaded structure size equals its loaded metadata length (any store
this program saves), ingest reports exactly the batch size (computed as
final size minus initial size), the structure grows by exactly the batch
size, and the metadata length equals the structure size afterwards. -/
theorem ingest_size_additive_on_aligned_store
    (B : List IngestRecord) (s : Store) (hne : B ≠ [])
    (hdim : ∀ r ∈ B, r.embedding.length = (load_index s).index.d)
    (halign : (load_index s).index.ntotal = (load_index s).metadata.length) :
    (ingest B s).1 = IngestOutcome.ok B.length ∧
    (load_index (ingest B s).2).index.ntotal
      = (load_index s).index.ntotal + B.length ∧
    (load_index (ingest B s).2).metadata.length
      = (load_index (ingest B s).2).index.ntotal := by
  rw [ingest_valid_eq B s hne hdim]
  refine ⟨rfl, ?_, ?_⟩
  · simp [load_save, FaissIndex.ntotal]
  · simp only [load_save, FaissIndex.ntotal, List.length_append,
      List.length_map]
    unfold FaissIndex.ntotal at halign
    omega

/-- Witness for C6 at a store holding an empty two-dimensional index and
a one-record batch. -/
theorem ingest_size_additive_on_aligned_store_wit :
    ([(⟨[0, 1], "a", none⟩ : IngestRecord)] ≠ []) ∧
    (ingest [(⟨[0, 1], "a", none⟩ : IngestRecord)] ⟨some ⟨2, []⟩, none⟩).1
      = IngestOutcome.ok 1 :=
  ⟨by simp, (ingest_size_additive_on_aligned_store
    [(⟨[0, 1], "a", none⟩ : IngestRecord)] ⟨some ⟨2, []⟩, none⟩ (by simp)
    (by intro r hr; simp only [List.mem_singleton] at hr; subst hr; rfl)
    (by rfl)).1⟩

/-! ## C3: the alignment invariant -/

/-- C3 counterexample: a store whose index file holds one vector and
whose metadata file is absent loads with structure size 1 and metadata
length 0, refuting the unconditional after-every-load claim. -/
theorem load_misaligned_metadata_cex :
    (load_index ⟨some ⟨VECTOR_DIM, [List.replicate VECTOR_DIM 0]⟩,
        none⟩).index.ntotal
      ≠ (load_index ⟨some ⟨VECTOR_DIM, [List.replicate VECTOR_DIM 0]⟩,
        none⟩).metadata.length := by
  decide

lemma ingest_preserves_alignment (B : List IngestRecord) (s : Store)
    (hal : (load_index s).index.ntotal = (load_index s).metadata.length) :
    (load_index (ingest B s).2).index.ntotal
      = (load_index (ingest B s).2).metadata.length := by
  cases B with
  | nil => simpa [ingest] using hal
  | cons a l =>
    by_cases hrow : sameRowLength (a.embedding :: l.map (fun x => x.embedding))
        = true
    · by_cases hadd : a.embedding.length = (load_index s).index.d
      · have hdim : ∀ r ∈ a :: l,
            r.embedding.length = (load_index s).index.d := by
          intro r hr
          rcases List.mem_cons.mp hr with h1 | h1
          · rw [h1]; exact hadd
          · rw [sameRowLength_cons_all hrow _ (List.mem_map_of_mem _ h1)]
            exact hadd
        rw [ingest_valid_eq (a :: l) s (by simp) hdim]
        simp only [load_save, FaissIndex.ntotal, List.length_append,
          List.length_map]
        unfold FaissIndex.ntotal at hal
        omega
      · have : (ingest (a :: l) s).2 = s := by
          simp [ingest, hrow, FaissIndex.add, hadd]
        rw [this]; exact hal
    · have : (ingest (a :: l) s).2 = s := by
        simp [ingest, hrow]
      rw [this]; exact hal

/-- C3 (amended): immediately after a load of fresh storage (no files)
or of storage produced by save of an aligned index, the structure size
equals the metadata length; and every ingest call, successful or not,
preserves this equality on the persisted store. -/
theorem load_aligned_and_ingest_preserves
    (s : Store)
    (h : (s.indexFile = none ∧ s.metadataFile = none) ∨
      ∃ i m, FaissIndex.ntotal i = m.length ∧ s = save_index i m) :
    (load_index s).index.ntotal = (load_index s).metadata.length ∧
    ∀ B, (load_index (ingest B s).2).index.ntotal
      = (load_index (ingest B s).2).metadata.length := by
  have hal : (load_index s).index.ntotal = (load_index s).metadata.length := by
    rcases h with ⟨h1, h2⟩ | ⟨i, m, him, rfl⟩
    · obtain ⟨f1, f2⟩ := s
      simp only at h1 h2
      subst h1; subst h2
      rfl
    · simpa [load_save] using him
  exact ⟨hal, fun B => ingest_preserves_alignment B s hal⟩

/-- Witness for C3 at the fresh store. -/
theorem load_aligned_and_ingest_preserves_wit :
    (load_index ⟨none, none⟩).index.ntotal
      = (load_index ⟨none, none⟩).metadata.length :=
  (load_aligned_and_ingest_preserves ⟨none, none⟩ (Or.inl ⟨rfl, rfl⟩)).1

/-! ## Evaluating a successful search -/

lemma filterMap_replicate_of_none {α β : Type} (f : α → Option β) (c : α)
    (m : ℕ) (h : f c = none) : (List.replicate m c).filterMap f = [] := by
  induction m with
  | zero => rfl
  | succ m ih => simp [List.replicate_succ, List.filterMap_cons, h, ih]

/-- A query against a non-empty index with a well-dimensioned vector
returns the texts of the in-range candidate positions, ranked
nearest-first. -/
lemma query_eval (s : Store) (q : List ℚ) (k : ℕ)
    (hne : ¬ (load_index s).index.ntotal = 0)
    (hq : q.length = (load_index s).index.d) :
    (query (some q) k s).1 = QueryOutcome.ok
      (((((List.range (load_index s).index.ntotal).insertionSort
            (rankRel (fun i =>
              sqDist ((load_index s).index.vecs.getD i []) q))).take k).map
          Int.ofNat ++
        List.replicate (k - (load_index s).index.ntotal) (-1 : ℤ)).filterMap
        (fun idx => if 0 ≤ idx ∧ idx < ((load_index s).metadata.length : ℤ)
          then (load_index s).metadata[idx.toNat]? else none)) := by
  simp only [query]
  rw [if_neg hne]
  simp only [FaissIndex.search, hq, if_pos]

/-! ## C4: k larger than the index size -/

/-- C4: querying a non-empty index with a well-dimensioned vector and k
greater than the index size succeeds (the sentinel and out-of-range
candidates are skipped, not fatal) and returns at most index-size
texts. -/
theorem query_large_k_returns_at_most_ntotal
    (q : List ℚ) (k : ℕ) (s : Store)
    (hq : q.length = (load_index s).index.d)
    (hne : ¬ (load_index s).index.ntotal = 0)
    (hk : (load_index s).index.ntotal < k) :
    ∃ res, (query (some q) k s).1 = QueryOutcome.ok res ∧
      res.length ≤ (load_index s).index.ntotal := by
  refine ⟨_, query_eval s q k hne hq, ?_⟩
  rw [List.filterMap_append]
  rw [filterMap_replicate_of_none _ _ _ (by simp)]
  rw [List.append_nil]
  calc (List.filterMap _ _).length
      ≤ ((((List.range (load_index s).index.ntotal).insertionSort
          (rankRel (fun i =>
            sqDist ((load_index s).index.vecs.getD i []) q))).take k).map
          Int.ofNat).length := List.length_filterMap_le _ _
    _ ≤ (load_index s).index.ntotal := by
        rw [List.length_map, List.length_take, List.length_insertionSort,
          List.length_range]
        exact min_le_right _ _

/-- Witness for C4: a one-vector index of dimension 2 queried with
k = 5. -/
theorem query_large_k_returns_at_most_ntotal_wit :
    ((load_index ⟨some ⟨2, [[0, 0]]⟩,
        some (MetaContent.parsed ["a"])⟩).index.ntotal < 5) ∧
    ∃ res, (query (some [0, 0]) 5
        ⟨some ⟨2, [[0, 0]]⟩, some (MetaContent.parsed ["a"])⟩).1
        = QueryOutcome.ok res ∧
      res.length ≤ (load_index ⟨some ⟨2, [[0, 0]]⟩,
        some (MetaContent.parsed ["a"])⟩).index.ntotal :=
  ⟨by decide, query_large_k_returns_at_most_ntotal [0, 0] 5
    ⟨some ⟨2, [[0, 0]]⟩, some (MetaContent.parsed ["a"])⟩
    rfl (by decide) (by decide)⟩

/-! ## Distance facts for C8 -/

lemma sqDist_nonneg (v w : List ℚ) : 0 ≤ sqDist v w := by
  apply List.sum_nonneg
  intro x hx
  rcases List.mem_map.mp hx with ⟨p, hp, rfl⟩
  exact sq_nonneg _

lemma sqDist_self (v : List ℚ) : sqDist v v = 0 := by
  induction v with
  | nil => rfl
  | cons a l ih =>
    simp only [sqDist, List.zip_cons_cons, List.map_cons, List.sum_cons,
      sub_self]
    simpa [sqDist] using ih

lemma sqDist_eq_zero {v w : List ℚ} (hlen : v.length = w.length)
    (h : sqDist v w = 0) : v = w := by
  induction v generalizing w with
  | nil =>
    cases w with
    | nil => rfl
    | cons b m => simp at hlen
  | cons a l ih =>
    cases w with
    | nil => simp at hlen
    | cons b m =>
      have h' : (a - b) ^ 2 + sqDist l m = 0 := h
      have h1 : (0 : ℚ) ≤ (a - b) ^ 2 := sq_nonneg _
      have h2 : (0 : ℚ) ≤ sqDist l m := sqDist_nonneg l m
      have hz1 : (a - b) ^ 2 = 0 := by linarith
      have hz2 : sqDist l m = 0 := by linarith
      have hab : a = b := by
        have := pow_eq_zero_iff (n := 2) (by norm_num) |>.mp hz1
        linarith
      have hlen' : l.length = m.length := by simpa using hlen
      rw [hab, ih hlen' hz2]

/-- The head of the ranked position list has key zero, whenever some
position with key zero exists: the ranking is sorted nearest-first and
squared distances are nonnegative. -/
lemma head_key_zero {n : ℕ} {key : ℕ → ℚ}
    (hnn : ∀ j, 0 ≤ key j) (p : ℕ) (hp : p < n) (hpz : key p = 0)
    {h : ℕ} {t : List ℕ}
    (he : (List.range n).insertionSort (rankRel key) = h :: t) :
    key h = 0 ∧ h < n := by
  have hsorted : List.Sorted (rankRel key) (h :: t) := by
    rw [← he]; exact List.sorted_insertionSort _ _
  have hperm : List.Perm (h :: t) (List.range n) := by
    rw [← he]; exact List.perm_insertionSort _ _
  have hn : h < n := List.mem_range.mp (hperm.mem_iff.mp (List.mem_cons_self h t))
  have hpmem : p ∈ h :: t := hperm.mem_iff.mpr (List.mem_range.mpr hp)
  rcases List.mem_cons.mp hpmem with h1 | hpt
  · rw [← h1]; exact ⟨hpz, hp⟩
  · have hr : rankRel key h p := (List.sorted_cons.mp hsorted).1 p hpt
    rcases hr with hlt | ⟨heq, _⟩
    · rw [hpz] at hlt
      have := hnn h
      constructor
      · linarith
      · exact hn
    · exact ⟨heq.trans hpz, hn⟩

/-- Querying a saved index with a vector equal to one of its stored
vectors: the query succeeds and the first returned text is the metadata
entry of a stored position whose vector equals the query vector. -/
lemma query_saved_exact (d : ℕ) (E : List (List ℚ)) (T : List String)
    (q : List ℚ) (k : ℕ)
    (hq : q.length = d)
    (hlen : ∀ v ∈ E, v.length = d)
    (hT : T.length = E.length)
    (p : ℕ) (hp : p < E.length) (hpq : E.getD p [] = q) (hk : 1 ≤ k) :
    ∃ res h, (query (some q) k (save_index ⟨d, E⟩ T)).1 = QueryOutcome.ok res ∧
      h < E.length ∧ E.getD h [] = q ∧ res.head? = T[h]? := by
  have hnz : E ≠ [] := by
    intro hE; rw [hE] at hp; simp at hp
  have hload : load_index (save_index ⟨d, E⟩ T) = ⟨⟨d, E⟩, T, false⟩ := rfl
  have hne0 : ¬ (load_index (save_index ⟨d, E⟩ T)).index.ntotal = 0 := by
    show ¬ E.length = 0
    simpa using hnz
  have hq' : q.length = (load_index (save_index ⟨d, E⟩ T)).index.d := hq
  rw [query_eval _ q k hne0 hq']
  simp only [hload, FaissIndex.ntotal]
  have hrne : (List.range E.length).insertionSort
      (rankRel (fun j => sqDist (E.getD j []) q)) ≠ [] := by
    intro hnil
    have hlen0 := congrArg List.length hnil
    rw [List.length_insertionSort, List.length_range] at hlen0
    exact hnz (List.length_eq_zero.mp hlen0)
  obtain ⟨h, t, he⟩ := List.exists_cons_of_ne_nil hrne
  obtain ⟨hkey0, hhn⟩ := head_key_zero
    (fun j => sqDist_nonneg (E.getD j []) q) p hp
    (by rw [hpq]; exact sqDist_self q) he
  have hTh : h < T.length := by rw [hT]; exact hhn
  have hget : E.getD h [] = q := by
    apply sqDist_eq_zero _ hkey0
    rw [hq, List.getD_eq_getElem E [] hhn]
    exact hlen _ (List.getElem_mem hhn)
  refine ⟨_, h, rfl, hhn, hget, ?_⟩
  rw [he]
  obtain ⟨k1, rfl⟩ : ∃ k1, k = k1 + 1 := ⟨k - 1, by omega⟩
  rw [List.take_succ_cons, List.map_cons, List.cons_append,
    List.filterMap_cons]
  simp [hTh, Int.toNat_ofNat, List.getElem?_eq_getElem hTh]

/-! ## C8: querying with the exact vector of an ingested record -/

/-- C8 (amended): for every valid batch B ingested into an empty index
(empty structure and empty metadata), querying with the exact vector of
any record of B and k at least 1 succeeds, and the first result is the
text of a record of B whose vector equals the query vector (a record at
squared L2 distance 0); it is the queried record's own text whenever no
other record of B carries the same vector. -/
theorem query_exact_vector_hits_distance_zero
    (B : List IngestRecord) (s₀ : Store) (i k : ℕ)
    (h0 : (load_index s₀).index.ntotal = 0)
    (hm : (load_index s₀).metadata = [])
    (hdim : ∀ r ∈ B, r.embedding.length = (load_index s₀).index.d)
    (hi : i < B.length) (hk : 1 ≤ k) :
    ∃ res j, (query (some ((B.getD i ⟨[], "", none⟩).embedding)) k
        (ingest B s₀).2).1 = QueryOutcome.ok res ∧
      j < B.length ∧
      (B.getD j ⟨[], "", none⟩).embedding
        = (B.getD i ⟨[], "", none⟩).embedding ∧
      res.head? = some ((B.getD j ⟨[], "", none⟩).text) := by
  have hne : B ≠ [] := by intro hB; rw [hB] at hi; simp at hi
  have hvecs0 : (load_index s₀).index.vecs = [] := by
    have h0' := h0
    unfold FaissIndex.ntotal at h0'
    exact List.length_eq_zero.mp h0'
  rw [ingest_valid_eq B s₀ hne hdim, hvecs0, hm]
  simp only [List.nil_append]
  have hmapgetD : ∀ j, j < B.length →
      (B.map (fun r => r.embedding)).getD j []
        = (B.getD j ⟨[], "", none⟩).embedding := by
    intro j hj
    rw [List.getD_eq_getElem _ _ (by simpa using hj), List.getElem_map,
      List.getD_eq_getElem B _ hj]
  obtain ⟨res, h, hres, hhn, hgetq, hhead⟩ := query_saved_exact
    (load_index s₀).index.d (B.map (fun r => r.embedding))
    (B.map (fun r => r.text))
    ((B.getD i ⟨[], "", none⟩).embedding) k
    (by rw [List.getD_eq_getElem B _ hi]; exact hdim _ (List.getElem_mem hi))
    (by intro v hv; rcases List.mem_map.mp hv with ⟨r, hr, rfl⟩; exact hdim r hr)
    (by rw [List.length_map, List.length_map])
    i (by simpa using hi)
    (hmapgetD i hi) hk
  have hBlen : h < B.length := by simpa using hhn
  refine ⟨res, h, hres, hBlen, ?_, ?_⟩
  · rw [← hmapgetD h hBlen]; exact hgetq
  · rw [hhead, List.getElem?_eq_getElem (by simpa using hBlen),
      List.getElem_map, List.getD_eq_getElem B _ hBlen]

/-- Witness for C8: a one-record batch into an empty one-dimensional
index, queried back with its own vector and k = 1. -/
theorem query_exact_vector_hits_distance_zero_wit :
    ∃ res j,
      (query (some (([(⟨[0], "a", none⟩ : IngestRecord)].getD 0
          ⟨[], "", none⟩).embedding)) 1
        (ingest [(⟨[0], "a", none⟩ : IngestRecord)]
          ⟨some ⟨1, []⟩, none⟩).2).1 = QueryOutcome.ok res ∧
      j < [(⟨[0], "a", none⟩ : IngestRecord)].length ∧
      ([(⟨[0], "a", none⟩ : IngestRecord)].getD j ⟨[], "", none⟩).embedding
        = ([(⟨[0], "a", none⟩ : IngestRecord)].getD 0 ⟨[], "", none⟩).embedding ∧
      res.head? = some (([(⟨[0], "a", none⟩ : IngestRecord)].getD j
          ⟨[], "", none⟩).text) :=
  query_exact_vector_hits_distance_zero
    [(⟨[0], "a", none⟩ : IngestRecord)] ⟨some ⟨1, []⟩, none⟩ 0 1 rfl rfl
    (by intro r hr; simp only [List.mem_singleton] at hr; subst hr; rfl)
    (by decide) (by decide)

/-- C8 counterexample: two records with identical vectors and different
texts, ingested into the fresh empty index; querying with the shared
vector (which is the exact vector of the second record, text b) and
k = 1 returns the first record's text a, so the claim that the query
returns the queried record's own text as first result fails for the
second record. -/
theorem query_duplicate_vector_first_text_cex :
    (ingest [⟨List.replicate VECTOR_DIM 0, "a", none⟩,
        ⟨List.replicate VECTOR_DIM 0, "b", none⟩] ⟨none, none⟩).1
      = IngestOutcome.ok 2 ∧
    ∃ res, (query (some (List.replicate VECTOR_DIM 0)) 1
        (ingest [⟨List.replicate VECTOR_DIM 0, "a", none⟩,
          ⟨List.replicate VECTOR_DIM 0, "b", none⟩] ⟨none, none⟩).2).1
        = QueryOutcome.ok res ∧
      res.head? = some "a" ∧ ¬ res.head? = some "b" := by
  have hdim : ∀ r ∈ [(⟨List.replicate VECTOR_DIM 0, "a", none⟩ : IngestRecord),
      ⟨List.replicate VECTOR_DIM 0, "b", none⟩],
      r.embedding.length = (load_index ⟨none, none⟩).index.d := by
    intro r hr
    show r.embedding.length = VECTOR_DIM
    rcases List.mem_cons.mp hr with h1 | h1
    · rw [h1]; exact List.length_replicate _ _
    · rcases List.mem_singleton.mp h1 with rfl
      exact List.length_replicate _ _
  have hing := ingest_valid_eq
    [(⟨List.replicate VECTOR_DIM 0, "a", none⟩ : IngestRecord),
      ⟨List.replicate VECTOR_DIM 0, "b", none⟩] ⟨none, none⟩ (by simp) hdim
  rw [hing]
  refine ⟨rfl, ?_⟩
  have hqa : (query (some (List.replicate VECTOR_DIM (0 : ℚ))) 1
      (save_index ⟨VECTOR_DIM,
        [List.replicate VECTOR_DIM 0, List.replicate VECTOR_DIM 0]⟩
        ["a", "b"])).1 = QueryOutcome.ok ["a"] := by
    rw [query_eval (save_index ⟨VECTOR_DIM,
        [List.replicate VECTOR_DIM 0, List.replicate VECTOR_DIM 0]⟩
        ["a", "b"]) (List.replicate VECTOR_DIM 0) 1 (by decide)
      (by show (List.replicate VECTOR_DIM (0 : ℚ)).length = VECTOR_DIM
          exact List.length_replicate _ _)]
    have hr01 : rankRel (fun j => sqDist
        (([List.replicate VECTOR_DIM (0 : ℚ),
          List.replicate VECTOR_DIM 0].getD j [])) (List.replicate VECTOR_DIM 0))
        0 1 := Or.inr ⟨rfl, Nat.zero_le 1⟩
    simp only [show (load_index (save_index ⟨VECTOR_DIM,
        [List.replicate VECTOR_DIM (0 : ℚ), List.replicate VECTOR_DIM 0]⟩
        ["a", "b"])).index.ntotal = 2 from rfl,
      show (load_index (save_index ⟨VECTOR_DIM,
        [List.replicate VECTOR_DIM (0 : ℚ), List.replicate VECTOR_DIM 0]⟩
        ["a", "b"])).index.vecs
          = [List.replicate VECTOR_DIM (0 : ℚ), List.replicate VECTOR_DIM 0]
        from rfl,
      show (load_index (save_index ⟨VECTOR_DIM,
        [List.replicate VECTOR_DIM (0 : ℚ), List.replicate VECTOR_DIM 0]⟩
        ["a", "b"])).metadata = ["a", "b"] from rfl]
    rw [show List.range 2 = [0, 1] from rfl]
    simp only [List.insertionSort, List.orderedInsert, List.orderedInsert_nil]
    rw [if_pos hr01]
    decide
  exact ⟨["a"], hqa, rfl, by simp⟩
